import Mathlib

/-!
Verification of the synapse Axon blob store (src/synapse/axon.py) against its
specification.  Bytes are modelled as `List Nat` (each element a byte value),
the LMDB slabs as association lists whose scans sort keys lexicographically,
and the async methods as pure state-passing functions returning `Except`
values for raised exceptions.
-/

namespace Synapse

/-- Byte strings are lists of byte values. -/
abbrev Bytes := List Nat

/-- Big-endian encoding of `n` into `k` bytes; models Python `n.to_bytes(k, 'big')`
for in-range `n` (`n < 256 ^ k`). -/
def beBytes : Nat → Nat → Bytes
  | 0, _ => []
  | k + 1, n => (n / 256 ^ k) :: beBytes k (n % 256 ^ k)

/-- Big-endian decoding; models Python `int.from_bytes(b, 'big')`. -/
def fromBytesBE (b : Bytes) : Nat := b.foldl (fun a x => a * 256 + x) 0

/-! ## SHA-256 (models Python `hashlib.sha256`, standard FIPS 180-4) -/

/-- Truncate to a 32-bit word. -/
def w32 (n : Nat) : Nat := n % 4294967296

/-- Rotate a 32-bit word right by `r`. -/
def rotr32 (r x : Nat) : Nat := w32 ((x >>> r) ||| (x <<< (32 - r)))

/-- SHA-256 big sigma-0. -/
def bsig0 (x : Nat) : Nat := rotr32 2 x ^^^ rotr32 13 x ^^^ rotr32 22 x

/-- SHA-256 big sigma-1. -/
def bsig1 (x : Nat) : Nat := rotr32 6 x ^^^ rotr32 11 x ^^^ rotr32 25 x

/-- SHA-256 small sigma-0. -/
def ssig0 (x : Nat) : Nat := rotr32 7 x ^^^ rotr32 18 x ^^^ (x >>> 3)

/-- SHA-256 small sigma-1. -/
def ssig1 (x : Nat) : Nat := rotr32 17 x ^^^ rotr32 19 x ^^^ (x >>> 10)

/-- SHA-256 choice function. -/
def chF (x y z : Nat) : Nat := (x &&& y) ^^^ ((x ^^^ 4294967295) &&& z)

/-- SHA-256 majority function. -/
def majF (x y z : Nat) : Nat := (x &&& y) ^^^ (x &&& z) ^^^ (y &&& z)

/-- SHA-256 round constants (the 64 words 428a2f98, 71374491, …, c67178f2 of
FIPS 180-4, written in decimal). -/
def sha256K : List Nat :=
  [1116352408, 1899447441, 3049323471, 3921009573, 961987163, 1508970993,
   2453635748, 2870763221, 3624381080, 310598401, 607225278, 1426881987,
   1925078388, 2162078206, 2614888103, 3248222580, 3835390401, 4022224774,
   264347078, 604807628, 770255983, 1249150122, 1555081692, 1996064986,
   2554220882, 2821834349, 2952996808, 3210313671, 3336571891, 3584528711,
   113926993, 338241895, 666307205, 773529912, 1294757372, 1396182291,
   1695183700, 1986661051, 2177026350, 2456956037, 2730485921, 2820302411,
   3259730800, 3345764771, 3516065817, 3600352804, 4094571909, 275423344,
   430227734, 506948616, 659060556, 883997877, 958139571, 1322822218,
   1537002063, 1747873779, 1955562222, 2024104815, 2227730452, 2361852424,
   2428436474, 2756734187, 3204031479, 3329325298]

/-- SHA-256 initial hash state (6a09e667, …, 5be0cd19 in decimal). -/
def sha256H0 : List Nat :=
  [1779033703, 3144134277, 1013904242, 2773480762, 1359893119, 2600822924,
   528734635, 1541459225]

/-- Merkle-Damgard padding for SHA-256. -/
def sha256pad (m : Bytes) : Bytes :=
  m ++ 128 :: List.replicate ((64 - ((m.length + 9) % 64)) % 64) 0 ++ beBytes 8 (8 * m.length)

/-- Group bytes into big-endian 32-bit words. -/
def bytesToWords : Bytes → List Nat
  | a :: b :: c :: d :: rest => (((a * 256 + b) * 256 + c) * 256 + d) :: bytesToWords rest
  | _ => []

/-- Split a word list into 16-word blocks (fuel-structured so that the kernel
can evaluate it; `ws.length` fuel always suffices). -/
def toBlocksFuel : Nat → List Nat → List (List Nat)
  | 0, _ => []
  | _ + 1, [] => []
  | fuel + 1, ws => ws.take 16 :: toBlocksFuel fuel (ws.drop 16)

/-- Split a word list into 16-word blocks. -/
def toBlocks (ws : List Nat) : List (List Nat) :=
  toBlocksFuel ws.length ws

/-- Extend the message schedule by one word. -/
def schedStep (w : List Nat) : List Nat :=
  w ++ [w32 (ssig1 (w.getD (w.length - 2) 0) + w.getD (w.length - 7) 0 +
             ssig0 (w.getD (w.length - 15) 0) + w.getD (w.length - 16) 0)]

/-- Iterate the message-schedule extension. -/
def schedule (w : List Nat) : Nat → List Nat
  | 0 => w
  | n + 1 => schedStep (schedule w n)

/-- One SHA-256 compression round on the working state `[a,b,c,d,e,f,g,h]`. -/
def roundStep (st : List Nat) (kw : Nat × Nat) : List Nat :=
  match st with
  | [a, b, c, d, e, f, g, h] =>
    let t1 := w32 (h + bsig1 e + chF e f g + kw.1 + kw.2)
    let t2 := w32 (bsig0 a + majF a b c)
    [w32 (t1 + t2), a, b, c, w32 (d + t1), e, f, g]
  | other => other

/-- Compress one 16-word block into the hash state. -/
def compressBlock (hs : List Nat) (block : List Nat) : List Nat :=
  let ws := schedule block 48
  let st := (sha256K.zip ws).foldl roundStep hs
  (hs.zip st).map (fun p => w32 (p.1 + p.2))

/-- SHA-256 digest (32 bytes) of a byte string.  Models Python
`hashlib.sha256(m).digest()`; `hashlib` is the Python standard library, so the
algorithm is the published FIPS 180-4 one rather than repository code. -/
def sha256 (m : Bytes) : Bytes :=
  (((toBlocks (bytesToWords (sha256pad m))).foldl compressBlock sha256H0).map (beBytes 4)).flatten

/-! ## Key-value slab model

Modelled from the spec: `synapse.lib.lmdbslab.Slab` (not under src/) is an
LMDB-backed key-value store.  A database is an association list of
`(key, value)` byte strings; `get`/`put`/`pop`/`delete` act on the unique entry
for a key, and prefix scans return entries in ascending lexicographic key
order, matching LMDB's sorted iteration. -/
abbrev SlabDB := List (Bytes × Bytes)

/-- Lexicographic comparison of byte strings, as used by LMDB key ordering. -/
def lexLe : Bytes → Bytes → Bool
  | [], _ => true
  | _ :: _, [] => false
  | a :: as, b :: bs => if a < b then true else if b < a then false else lexLe as bs

/-- Whether `p` is a leading segment of `k` (LMDB prefix-scan membership). -/
def hasPref : Bytes → Bytes → Bool
  | [], _ => true
  | _ :: _, [] => false
  | a :: as, b :: bs => if a = b then hasPref as bs else false

/-- Slab lookup for a key. -/
def slabGet (db : SlabDB) (k : Bytes) : Option Bytes :=
  match db with
  | [] => none
  | kv :: rest => if kv.1 = k then some kv.2 else slabGet rest k

/-- Slab insert-or-replace for a key. -/
def slabPut (db : SlabDB) (k v : Bytes) : SlabDB :=
  match db with
  | [] => [(k, v)]
  | kv :: rest => if kv.1 = k then (k, v) :: rest else kv :: slabPut rest k v

/-- Slab pop: remove the entry for a key, returning its value if present. -/
def slabPop (db : SlabDB) (k : Bytes) : Option Bytes × SlabDB :=
  match db with
  | [] => (none, [])
  | kv :: rest =>
    if kv.1 = k then (some kv.2, rest)
    else
      let r := slabPop rest k
      (r.1, kv :: r.2)

/-- Slab delete of a key. -/
def slabDelete (db : SlabDB) (k : Bytes) : SlabDB :=
  db.filter (fun kv => decide (kv.1 ≠ k))

/-- Ordering on slab entries by key, for sorted scans. -/
abbrev keyLe (a b : Bytes × Bytes) : Prop := lexLe a.1 b.1 = true

/-- Prefix scan: models `Slab.scanByPref`, yielding the entries whose key
starts with `pref` in ascending lexicographic key order. -/
def scanByPref (db : SlabDB) (pref : Bytes) : SlabDB :=
  List.insertionSort keyLe (db.filter (fun kv => hasPref pref kv.1))

/-- Key-only prefix scan: models `Slab.scanKeysByPref`. -/
def scanKeysByPref (db : SlabDB) (pref : Bytes) : List Bytes :=
  (scanByPref db pref).map Prod.fst

/-! ## Axon state and operations (src/synapse/axon.py) -/

/-- Exceptions raised by the modelled operations: `s_exc.HitLimit`,
`s_exc.NoSuchFile`, and an abort raised by a byte producer mid-stream
(`s_exc.IsFini` in `UpLoad.save`'s generator). -/
inductive AxonErr
  | hitLimit
  | noSuchFile
  | aborted
deriving DecidableEq, Repr

instance {ε α : Type} [DecidableEq ε] [DecidableEq α] :
    DecidableEq (Except ε α) := fun a b =>
  match a, b with
  | Except.ok x, Except.ok y =>
    if h : x = y then isTrue (by rw [h]) else isFalse (by intro hc; cases hc; exact h rfl)
  | Except.error x, Except.error y =>
    if h : x = y then isTrue (by rw [h]) else isFalse (by intro hc; cases hc; exact h rfl)
  | Except.ok _, Except.error _ => isFalse (by intro hc; cases hc)
  | Except.error _, Except.ok _ => isFalse (by intro hc; cases hc)

/-- The Axon's durable and in-memory state: the `sizes` database
(digest to 8-byte big-endian size), the `blobs` database (chunk keys
`digest ++ ordinal_be64` to chunk bytes), the append-only sequence and the
history (timestamps abstracted away; both receive the same `(sha256, size)`
items via `_addSyncItem`), the two hive metrics counters, the configured
limits, and the `hashlocks` registry (digest to refcount; the `asyncio.Lock`
itself is irrelevant to the sequential model). -/
structure AxonState where
  sizes : SlabDB
  blobs : SlabDB
  seqn : List (Bytes × Nat)
  hist : List (Bytes × Nat)
  fileCount : Int
  sizeBytes : Int
  maxbytes : Option Nat
  maxcount : Option Nat
  hashlocks : List (Bytes × Nat)
deriving DecidableEq, Repr

/-- A freshly initialized Axon with the given limit configuration. -/
def axonInit (maxbytes maxcount : Option Nat) : AxonState :=
  ⟨[], [], [], [], 0, 0, maxbytes, maxcount, []⟩

/-- The `max:count` half of `Axon._reqBelowLimit`. -/
def reqBelowCount (s : AxonState) : Except AxonErr Unit :=
  match s.maxcount with
  | some mc => if (mc : Int) ≤ s.fileCount then Except.error .hitLimit else Except.ok ()
  | none => Except.ok ()

/-- Models `Axon._reqBelowLimit`: raise `HitLimit` when a configured limit has
been reached, checking `max:bytes` before `max:count`. -/
def reqBelowLimit (s : AxonState) : Except AxonErr Unit :=
  match s.maxbytes with
  | some mb => if (mb : Int) ≤ s.sizeBytes then Except.error .hitLimit else reqBelowCount s
  | none => reqBelowCount s

/-- Acquisition half of `Axon.holdHashLock`: create the registry entry with
refcount 1 when absent, otherwise increment it. -/
def lockBump (ls : List (Bytes × Nat)) (d : Bytes) : List (Bytes × Nat) :=
  match ls with
  | [] => [(d, 1)]
  | kc :: rest => if kc.1 = d then (kc.1, kc.2 + 1) :: rest else kc :: lockBump rest d

/-- Release half of `Axon.holdHashLock`: decrement the refcount and pop the
entry when it reaches zero. -/
def lockDrop (ls : List (Bytes × Nat)) (d : Bytes) : List (Bytes × Nat) :=
  match ls with
  | [] => []
  | kc :: rest =>
    if kc.1 = d then (if kc.2 - 1 = 0 then rest else (kc.1, kc.2 - 1) :: rest)
    else kc :: lockDrop rest d

/-- Models one holder passing through `Axon.holdHashLock`: the refcount is
bumped on entry; the decrement and zero-refcount pop after the `yield` run
only when the guarded body exits normally (`bodyOk`), because the generator
has no try/finally — an exception thrown into the `yield` skips them. -/
def holdHashLockRun (ls : List (Bytes × Nat)) (d : Bytes) (bodyOk : Bool) :
    List (Bytes × Nat) :=
  let l1 := lockBump ls d
  if bodyOk then lockDrop l1 d else l1

/-- A byte producer handed to `Axon.save`: the chunks it yields, and whether
it raises after yielding them (a cancelled or failed upload). -/
structure Producer where
  chunks : List Bytes
  fails : Bool
deriving DecidableEq, Repr

/-- Models `Axon._saveFileGenr`: write each yielded chunk at key
`sha256 ++ i.to_bytes(8, 'big')` while accumulating the total size; chunks
written before a producer failure stay written. -/
def saveFileGenr (sha : Bytes) (p : Producer) (blobs : SlabDB) :
    SlabDB × Except AxonErr Nat :=
  let st := p.chunks.enum.foldl
    (fun acc ic => (slabPut acc.1 (sha ++ beBytes 8 ic.1) ic.2, acc.2 + ic.2.length))
    (blobs, 0)
  if p.fails then (st.1, Except.error .aborted) else (st.1, Except.ok st.2)

/-- Models `Axon.save`: check the capacity limits, then under the hash lock
re-check the size index (returning the stored size when present), write the
chunks, append the `(sha256, size)` item to the sequence and history, bump the
metrics counters and finally write the size-index entry.  A producer failure
propagates after the chunks written so far, without touching the size index,
sequence, history or counters — and without running the lock release, which
`holdHashLock` only performs on a normal exit. -/
def save (sha : Bytes) (p : Producer) (s : AxonState) :
    AxonState × Except AxonErr Nat :=
  match reqBelowLimit s with
  | Except.error e => (s, Except.error e)
  | Except.ok _ =>
    let locks1 := lockBump s.hashlocks sha
    match slabGet s.sizes sha with
    | some byts =>
      ({ s with hashlocks := lockDrop locks1 sha }, Except.ok (fromBytesBE byts))
    | none =>
      match saveFileGenr sha p s.blobs with
      | (blobs1, Except.error e) =>
        ({ s with blobs := blobs1, hashlocks := locks1 }, Except.error e)
      | (blobs1, Except.ok size) =>
        ({ s with
            blobs := blobs1,
            seqn := s.seqn ++ [(sha, size)],
            hist := s.hist ++ [(sha, size)],
            fileCount := s.fileCount + 1,
            sizeBytes := s.sizeBytes + (size : Int),
            sizes := slabPut s.sizes sha (beBytes 8 size),
            hashlocks := lockDrop locks1 sha }, Except.ok size)

/-- Python truthiness of `self.axonslab.pop(...)`'s result: `None` and empty
bytes are falsy, any non-empty byte string is truthy. -/
def pyFalsy : Option Bytes → Bool
  | none => true
  | some b => b.isEmpty

/-- Models `Axon._delBlobByts`: delete every chunk key found by a prefix scan
of the digest. -/
def delBlobByts (blobs : SlabDB) (sha : Bytes) : SlabDB :=
  (scanKeysByPref blobs sha).foldl (fun db k => slabDelete db k) blobs

/-- Models `Axon.del_`: under the hash lock, pop the size-index entry; if the
popped value is falsy return `false`, otherwise decrement the counters by one
file and by the decoded size, sweep the chunks by prefix and return `true`. -/
def del_ (sha : Bytes) (s : AxonState) : AxonState × Bool :=
  let locks1 := lockBump s.hashlocks sha
  let pr := slabPop s.sizes sha
  if pyFalsy pr.1 then
    ({ s with sizes := pr.2, hashlocks := lockDrop locks1 sha }, false)
  else
    let size := fromBytesBE (pr.1.getD [])
    ({ s with
        sizes := pr.2,
        fileCount := s.fileCount - 1,
        sizeBytes := s.sizeBytes - (size : Int),
        blobs := delBlobByts s.blobs sha,
        hashlocks := lockDrop locks1 sha }, true)

/-- Models `Axon.has`: the size index is the authoritative existence test. -/
def axonHas (s : AxonState) (sha : Bytes) : Bool :=
  (slabGet s.sizes sha).isSome

/-- Models `Axon.size`: decode the size-index entry when present. -/
def axonSize (s : AxonState) (sha : Bytes) : Option Nat :=
  (slabGet s.sizes sha).map fromBytesBE

/-- Models `Axon.get`: raise `NoSuchFile` when the digest is absent from the
size index, otherwise yield the chunk values of the prefix scan in order. -/
def getBlob (s : AxonState) (sha : Bytes) : Except AxonErr (List Bytes) :=
  if axonHas s sha then Except.ok ((scanByPref s.blobs sha).map Prod.snd)
  else Except.error .noSuchFile

/-- Models `Axon.hashes`: walk the sequence from `offs`, yielding each
`(offset, (sha256, size))` row whose digest still has a size-index entry. -/
def hashes (offs : Nat) (s : AxonState) : List (Nat × (Bytes × Nat)) :=
  s.seqn.enum.filter (fun it => decide (offs ≤ it.1) && (slabGet s.sizes it.2.1).isSome)

/-- The spooled-upload chunk size, 16 MiB (`CHUNK_SIZE`). -/
def CHUNK_SIZE : Nat := 16 * 1024 * 1024

/-- Fuel-structured splitting of a byte string into successive `c`-byte
chunks; `b.length` fuel always suffices when `0 < c`. -/
def chunksOfFuel : Nat → Nat → Bytes → List Bytes
  | 0, _, _ => []
  | _ + 1, _, [] => []
  | fuel + 1, c, b => b.take c :: chunksOfFuel fuel c (b.drop c)

/-- Split a byte string into successive `c`-byte chunks (the reads performed
by the generator in `UpLoad.save`); the final chunk may be shorter. -/
def chunksOf (c : Nat) (b : Bytes) : List Bytes :=
  chunksOfFuel b.length c b

/-- Models `UpLoad.save` applied to an upload whose buffer holds `byts`: the
digest and size are finalized first; when the Axon already has the digest the
session resets and returns without writing, otherwise the buffered bytes are
replayed to `Axon.save` in `CHUNK_SIZE` chunks. -/
def upLoadSave (byts : Bytes) (s : AxonState) :
    AxonState × Except AxonErr (Nat × Bytes) :=
  let sha := sha256 byts
  if axonHas s sha then (s, Except.ok (byts.length, sha))
  else
    match save sha ⟨chunksOf CHUNK_SIZE byts, false⟩ s with
    | (s1, Except.ok _) => (s1, Except.ok (byts.length, sha))
    | (s1, Except.error e) => (s1, Except.error e)

/-- Models `Axon.put`: write the bytes to a fresh `UpLoad` and save it. -/
def put (byts : Bytes) (s : AxonState) :
    AxonState × Except AxonErr (Nat × Bytes) :=
  upLoadSave byts s

/-- Sum of the decoded sizes stored in the size index. -/
def sizesSum (db : SlabDB) : Int :=
  (db.map (fun kv => (fromBytesBE kv.2 : Int))).sum

/-- The metrics consistency invariant: `file:count` equals the number of
size-index entries and `size:bytes` equals the sum of their decoded sizes. -/
def metricsOk (s : AxonState) : Prop :=
  s.fileCount = s.sizes.length ∧ s.sizeBytes = sizesSum s.sizes

/-- Well-formedness of the size index as maintained by `Axon.save`: keys are
unique (LMDB) and every value is a non-empty (8-byte) size encoding. -/
def sizesWf (db : SlabDB) : Prop :=
  (db.map Prod.fst).Nodup ∧ ∀ kv ∈ db, kv.2 ≠ []

/-- A state-mutating Axon operation, for stating state invariants. -/
inductive AxOp
  | opSave (sha : Bytes) (p : Producer)
  | opDel (sha : Bytes)

/-- The state reached by running an operation (discarding its return value). -/
def runOpState : AxOp → AxonState → AxonState
  | .opSave sha p, s => (save sha p s).1
  | .opDel sha, s => (del_ sha s).1

/-- Side condition on an operation: a saved blob's total size fits the 8-byte
size encoding (Python `size.to_bytes(8, 'big')` raises beyond it). -/
def opSizeOk : AxOp → Prop
  | .opSave _ p => (p.chunks.map List.length).sum < 2 ^ 64
  | .opDel _ => True

/-! ## URL fetcher (`Axon.wget`) -/

/-- Lower-case hex digit. -/
def hexDigit (n : Nat) : Char :=
  if n < 10 then Char.ofNat (48 + n) else Char.ofNat (87 + n)

/-- Modelled from the spec: `synapse.common.ehex` (not under src/) renders
bytes as a lowercase hex string. -/
def ehex (b : Bytes) : String :=
  String.mk (b.foldr (fun x acc => hexDigit (x / 16) :: hexDigit (x % 16) :: acc) [])

/-- A completed HTTP exchange observed by `Axon.wget`: final URL, status code,
headers and the full response body. -/
structure HttpResp where
  url : String
  code : Nat
  headers : List (String × String)
  body : Bytes
deriving DecidableEq, Repr

/-- Outcome of the `aiohttp` request as seen inside `wget`'s try block: the
exchange completed (any status code), a transport-level exception was raised,
or the task was cancelled. -/
inductive HttpOutcome
  | resp (r : HttpResp)
  | exn (mesg : String)
  | cancelled
deriving DecidableEq, Repr

/-- The dictionary `Axon.wget` returns; absent keys are `none`. -/
structure WgetInfo where
  ok : Bool
  url : Option String
  code : Option Nat
  headers : Option (List (String × String))
  size : Option Nat
  hashes : Option (List (String × String))
  mesg : Option String
deriving DecidableEq, Repr

/-- Modelled from the spec: the message `synapse.common.excinfo` (not under
src/) extracts from a caught exception. -/
def errMesg : AxonErr → String
  | .hitLimit => "Axon is at limit"
  | .noSuchFile => "Axon does not contain the requested file."
  | .aborted => "IsFini"

/-- Modelled from the spec: `synapse.lib.hashset.HashSet` (not under src/)
accumulates md5, sha1, sha256 and sha512 digests of the fed bytes; `digests()`
returns them as named pairs.  The md5, sha1 and sha512 functions are
parameters; sha256 is the model's own. -/
def hashSetDigests (md5f sha1f sha512f : Bytes → Bytes) (body : Bytes) :
    List (String × Bytes) :=
  [("md5", md5f body), ("sha1", sha1f body),
   ("sha256", sha256 body), ("sha512", sha512f body)]

/-- Models `Axon.wget` given the outcome of the HTTP exchange: on a completed
exchange the body is streamed into an upload session and saved, and the info
dictionary carries `ok = True` with url/code/headers/size/hashes — unless the
save raises, in which case the blanket `except Exception` yields
`ok = False` with a message, exactly as it does for transport exceptions;
`asyncio.CancelledError` is re-raised (modelled as `Except.error ()`). -/
def wget (md5f sha1f sha512f : Bytes → Bytes) (out : HttpOutcome)
    (s : AxonState) : AxonState × Except Unit WgetInfo :=
  match out with
  | .cancelled => (s, Except.error ())
  | .exn m => (s, Except.ok ⟨false, none, none, none, none, none, some m⟩)
  | .resp r =>
    match upLoadSave r.body s with
    | (s1, Except.ok (size, _)) =>
      (s1, Except.ok ⟨true, some r.url, some r.code, some r.headers, some size,
        some ((hashSetDigests md5f sha1f sha512f r.body).map
          (fun p => (p.1, ehex p.2))), none⟩)
    | (s1, Except.error e) =>
      (s1, Except.ok ⟨false, none, none, none, none, none, some (errMesg e)⟩)

/-! ## Byte-encoding lemmas -/

lemma beBytes_foldl (k : Nat) :
    ∀ n a : Nat, n < 256 ^ k →
      (beBytes k n).foldl (fun acc x => acc * 256 + x) a = a * 256 ^ k + n := by
  induction k with
  | zero =>
    intro n a h
    simp only [beBytes, List.foldl_nil, pow_zero]
    omega
  | succ k ih =>
    intro n a h
    have hP : (0 : Nat) < 256 ^ k := by positivity
    rw [beBytes, List.foldl_cons, ih (n % 256 ^ k) _ (Nat.mod_lt _ hP)]
    have h2 := Nat.div_add_mod n (256 ^ k)
    rw [pow_succ]
    nlinarith [h2]

lemma fromBytesBE_beBytes {k n : Nat} (h : n < 256 ^ k) :
    fromBytesBE (beBytes k n) = n := by
  unfold fromBytesBE
  rw [beBytes_foldl k n 0 h]
  ring

lemma beBytes_inj {k n m : Nat} (hn : n < 256 ^ k) (hm : m < 256 ^ k)
    (h : beBytes k n = beBytes k m) : n = m := by
  have := congrArg fromBytesBE h
  rwa [fromBytesBE_beBytes hn, fromBytesBE_beBytes hm] at this

lemma lexLe_beBytes : ∀ k n m : Nat, n ≤ m → m < 256 ^ k →
    lexLe (beBytes k n) (beBytes k m) = true := by
  intro k
  induction k with
  | zero => intro n m _ _; rfl
  | succ k ih =>
    intro n m hnm hm
    have hP : (0 : Nat) < 256 ^ k := by positivity
    rw [beBytes, beBytes]
    simp only [lexLe]
    have hdiv : n / 256 ^ k ≤ m / 256 ^ k := Nat.div_le_div_right hnm
    rcases lt_or_eq_of_le hdiv with hlt | heq
    · rw [if_pos hlt]
    · rw [heq, if_neg (lt_irrefl _), if_neg (lt_irrefl _)]
      apply ih
      · have h1 := Nat.div_add_mod n (256 ^ k)
        have h2 := Nat.div_add_mod m (256 ^ k)
        rw [heq] at h1
        omega
      · exact Nat.mod_lt _ hP

lemma lexLe_append : ∀ p a b : Bytes, lexLe (p ++ a) (p ++ b) = lexLe a b := by
  intro p a b
  induction p with
  | nil => rfl
  | cons x xs ih =>
    simp only [List.cons_append, lexLe, if_neg (lt_irrefl x)]
    exact ih

lemma hasPref_append_self : ∀ p x : Bytes, hasPref p (p ++ x) = true := by
  intro p x
  induction p with
  | nil => rfl
  | cons a as ih => simp only [List.cons_append, hasPref, if_pos rfl]; exact ih

/-! ## Slab lemmas -/

lemma slabGet_eq_none {db : SlabDB} {k : Bytes} :
    slabGet db k = none ↔ ∀ kv ∈ db, kv.1 ≠ k := by
  induction db with
  | nil => simp [slabGet]
  | cons kv rest ih =>
    by_cases h : kv.1 = k
    · simp [slabGet, h]
    · simp [slabGet, h, ih]

lemma slabPut_absent {db : SlabDB} {k : Bytes} (v : Bytes)
    (h : slabGet db k = none) : slabPut db k v = db ++ [(k, v)] := by
  induction db with
  | nil => rfl
  | cons kv rest ih =>
    rw [slabGet] at h
    by_cases hk : kv.1 = k
    · rw [if_pos hk] at h; exact absurd h (by simp)
    · rw [if_neg hk] at h
      rw [slabPut, if_neg hk, List.cons_append, ih h]

lemma slabGet_slabPut_self (db : SlabDB) (k v : Bytes) :
    slabGet (slabPut db k v) k = some v := by
  induction db with
  | nil => simp [slabPut, slabGet]
  | cons kv rest ih =>
    by_cases hk : kv.1 = k
    · simp [slabPut, hk, slabGet]
    · simp [slabPut, hk, slabGet, ih]

lemma slabPop_fst (db : SlabDB) (k : Bytes) :
    (slabPop db k).1 = slabGet db k := by
  induction db with
  | nil => rfl
  | cons kv rest ih =>
    by_cases hk : kv.1 = k
    · simp [slabPop, hk, slabGet]
    · simp [slabPop, hk, slabGet, ih]

lemma slabPop_none_snd {db : SlabDB} {k : Bytes} (h : slabGet db k = none) :
    (slabPop db k).2 = db := by
  induction db with
  | nil => rfl
  | cons kv rest ih =>
    rw [slabGet] at h
    by_cases hk : kv.1 = k
    · rw [if_pos hk] at h; exact absurd h (by simp)
    · rw [if_neg hk] at h
      simp [slabPop, hk, ih h]

lemma slabPop_some_length {db : SlabDB} {k v : Bytes}
    (h : slabGet db k = some v) :
    ((slabPop db k).2).length + 1 = db.length := by
  induction db with
  | nil => simp [slabGet] at h
  | cons kv rest ih =>
    rw [slabGet] at h
    by_cases hk : kv.1 = k
    · simp [slabPop, hk]
    · rw [if_neg hk] at h
      simp only [slabPop, if_neg hk, List.length_cons]
      rw [← ih h]

lemma slabPop_some_sum {db : SlabDB} {k v : Bytes}
    (h : slabGet db k = some v) :
    sizesSum ((slabPop db k).2) + fromBytesBE v = sizesSum db := by
  induction db with
  | nil => simp [slabGet] at h
  | cons kv rest ih =>
    rw [slabGet] at h
    by_cases hk : kv.1 = k
    · rw [if_pos hk] at h
      injection h with h
      simp only [slabPop, if_pos hk, sizesSum, List.map_cons, List.sum_cons, h]
      ring
    · rw [if_neg hk] at h
      simp only [slabPop, if_neg hk, sizesSum, List.map_cons, List.sum_cons]
      have := ih h
      unfold sizesSum at this
      linarith

lemma slabPop_get_none {db : SlabDB} {k : Bytes}
    (h : (db.map Prod.fst).Nodup) : slabGet ((slabPop db k).2) k = none := by
  induction db with
  | nil => rfl
  | cons kv rest ih =>
    rw [List.map_cons, List.nodup_cons] at h
    by_cases hk : kv.1 = k
    · simp only [slabPop, if_pos hk]
      rw [slabGet_eq_none]
      intro q hq hqk
      exact h.1 (hk ▸ hqk ▸ List.mem_map_of_mem Prod.fst hq)
    · simp [slabPop, hk, slabGet, ih h.2]

/-! ## Hash-lock lemmas -/

lemma lockDrop_lockBump {ls : List (Bytes × Nat)} {d : Bytes}
    (h : ∀ q ∈ ls, q.1 = d → 1 ≤ q.2) :
    lockDrop (lockBump ls d) d = ls := by
  induction ls with
  | nil => simp [lockBump, lockDrop]
  | cons kc rest ih =>
    by_cases hk : kc.1 = d
    · have h1 : 1 ≤ kc.2 := h kc (List.mem_cons_self _ _) hk
      simp only [lockBump, if_pos hk, lockDrop, if_pos hk, Nat.add_sub_cancel]
      rw [if_neg (by omega : ¬kc.2 = 0)]
    · simp only [lockBump, if_neg hk, lockDrop, if_neg hk, List.cons.injEq, true_and]
      exact ih (fun q hq => h q (List.mem_cons_of_mem _ hq))

/-! ## Chunking lemmas -/

lemma chunksOfFuel_flatten (c : Nat) (hc : 0 < c) :
    ∀ (fuel : Nat) (b : Bytes), b.length ≤ fuel →
      (chunksOfFuel fuel c b).flatten = b := by
  intro fuel
  induction fuel with
  | zero =>
    intro b hb
    have hnil : b = [] := by
      cases b with
      | nil => rfl
      | cons x xs => simp at hb
    subst hnil
    rfl
  | succ fuel ih =>
    intro b hb
    cases b with
    | nil => rfl
    | cons x xs =>
      show ((x :: xs).take c :: chunksOfFuel fuel c ((x :: xs).drop c)).flatten = x :: xs
      rw [List.flatten_cons, ih ((x :: xs).drop c) ?_, List.take_append_drop]
      simp only [List.length_drop, List.length_cons]
      simp only [List.length_cons] at hb
      omega

lemma chunksOf_flatten (c : Nat) (hc : 0 < c) (b : Bytes) :
    (chunksOf c b).flatten = b :=
  chunksOfFuel_flatten c hc b.length b le_rfl

lemma chunksOfFuel_length_le (c : Nat) (hc : 0 < c) :
    ∀ (fuel : Nat) (b : Bytes), b.length ≤ fuel →
      (chunksOfFuel fuel c b).length ≤ b.length := by
  intro fuel
  induction fuel with
  | zero => intro b _; simp [chunksOfFuel]
  | succ fuel ih =>
    intro b hb
    cases b with
    | nil => simp [chunksOfFuel]
    | cons x xs =>
      show ((x :: xs).take c :: chunksOfFuel fuel c ((x :: xs).drop c)).length ≤ _
      have hrec := ih ((x :: xs).drop c) (by
        simp only [List.length_drop, List.length_cons]
        simp only [List.length_cons] at hb
        omega)
      simp only [List.length_drop, List.length_cons] at hrec ⊢
      omega

lemma chunksOf_length_le (c : Nat) (hc : 0 < c) (b : Bytes) :
    (chunksOf c b).length ≤ b.length :=
  chunksOfFuel_length_le c hc b.length b le_rfl

lemma chunksOf_sum (c : Nat) (hc : 0 < c) (b : Bytes) :
    ((chunksOf c b).map List.length).sum = b.length := by
  rw [← List.length_flatten, chunksOf_flatten c hc b]

/-! ## Enumeration lemmas -/

lemma mem_enumFrom_bounds {α : Type} :
    ∀ (l : List α) (k : Nat) (p : Nat × α),
      p ∈ List.enumFrom k l → k ≤ p.1 ∧ p.1 < k + l.length := by
  intro l
  induction l with
  | nil => intro k p h; simp [List.enumFrom] at h
  | cons x xs ih =>
    intro k p h
    rw [List.enumFrom] at h
    rcases List.mem_cons.mp h with h1 | h1
    · subst h1; simp
    · have := ih (k + 1) p h1
      simp only [List.length_cons]
      omega

lemma enumFrom_pairwise {α : Type} :
    ∀ (l : List α) (k : Nat),
      (List.enumFrom k l).Pairwise (fun a b => a.1 < b.1) := by
  intro l
  induction l with
  | nil => intro k; simp [List.enumFrom]
  | cons x xs ih =>
    intro k
    rw [List.enumFrom]
    apply List.Pairwise.cons
    · intro p hp
      have := (mem_enumFrom_bounds xs (k + 1) p hp).1
      simp only
      omega
    · exact ih (k + 1)

lemma enum_pairwise {α : Type} (l : List α) :
    l.enum.Pairwise (fun a b => a.1 < b.1) :=
  enumFrom_pairwise l 0

lemma mem_enum_lt {α : Type} {l : List α} {p : Nat × α} (h : p ∈ l.enum) :
    p.1 < l.length := by
  have := (mem_enumFrom_bounds l 0 p h).2
  omega

/-! ## Chunk-write (`_saveFileGenr`) lemmas -/

lemma saveFoldSize (sha : Bytes) :
    ∀ (l : List (Nat × Bytes)) (db : SlabDB) (n : Nat),
      (l.foldl
        (fun acc ic => (slabPut acc.1 (sha ++ beBytes 8 ic.1) ic.2, acc.2 + ic.2.length))
        (db, n)).2 = n + (l.map (fun ic => ic.2.length)).sum := by
  intro l
  induction l with
  | nil => intro db n; simp
  | cons ic rest ih =>
    intro db n
    simp only [List.foldl_cons, List.map_cons, List.sum_cons]
    rw [ih]
    ring

lemma saveFold (sha : Bytes) :
    ∀ (l : List (Nat × Bytes)) (db : SlabDB) (n : Nat),
      (∀ ic ∈ l, ∀ kv ∈ db, kv.1 ≠ sha ++ beBytes 8 ic.1) →
      (∀ ic ∈ l, ic.1 < 2 ^ 64) →
      l.Pairwise (fun a b => a.1 ≠ b.1) →
      l.foldl
        (fun acc ic => (slabPut acc.1 (sha ++ beBytes 8 ic.1) ic.2, acc.2 + ic.2.length))
        (db, n)
        = (db ++ l.map (fun ic => (sha ++ beBytes 8 ic.1, ic.2)),
           n + (l.map (fun ic => ic.2.length)).sum) := by
  have h256 : (256 : Nat) ^ 8 = 2 ^ 64 := by norm_num
  intro l
  induction l with
  | nil => intro db n _ _ _; simp
  | cons ic rest ih =>
    intro db n hfresh hbound hpair
    simp only [List.foldl_cons]
    have habs : slabGet db (sha ++ beBytes 8 ic.1) = none := by
      rw [slabGet_eq_none]
      intro kv hkv
      exact hfresh ic (List.mem_cons_self _ _) kv hkv
    rw [slabPut_absent _ habs]
    rw [ih (db ++ [(sha ++ beBytes 8 ic.1, ic.2)]) (n + ic.2.length) ?_ ?_
        (List.pairwise_cons.mp hpair).2]
    · simp [List.append_assoc, add_assoc]
    · intro ic' hic' kv hkv
      rcases List.mem_append.mp hkv with hkv1 | hkv1
      · exact hfresh ic' (List.mem_cons_of_mem _ hic') kv hkv1
      · rcases List.mem_singleton.mp hkv1 with rfl
        intro hcon
        simp only at hcon
        have heq := List.append_cancel_left hcon
        have hne := (List.pairwise_cons.mp hpair).1 ic' hic'
        exact hne (beBytes_inj (h256 ▸ hbound ic (List.mem_cons_self _ _))
          (h256 ▸ hbound ic' (List.mem_cons_of_mem _ hic')) heq)
    · intro ic' hic'
      exact hbound ic' (List.mem_cons_of_mem _ hic')

/-! ## Prefix-scan lemmas -/

lemma scanByPref_fresh_save (sha : Bytes) (db : SlabDB) (news : List (Nat × Bytes))
    (hdb : ∀ kv ∈ db, hasPref sha kv.1 = false)
    (hbound : ∀ ic ∈ news, ic.1 < 2 ^ 64)
    (hpair : news.Pairwise (fun a b => a.1 < b.1)) :
    scanByPref (db ++ news.map (fun ic => (sha ++ beBytes 8 ic.1, ic.2))) sha
      = news.map (fun ic => (sha ++ beBytes 8 ic.1, ic.2)) := by
  have h256 : (256 : Nat) ^ 8 = 2 ^ 64 := by norm_num
  unfold scanByPref
  rw [List.filter_append]
  rw [List.filter_eq_nil.mpr (fun kv hkv => by simp [hdb kv hkv])]
  rw [List.filter_eq_self.mpr ?_, List.nil_append]
  · apply List.Sorted.insertionSort_eq
    apply List.pairwise_map.mpr
    apply hpair.imp_of_mem
    intro a b ha hb hab
    show lexLe (sha ++ beBytes 8 a.1) (sha ++ beBytes 8 b.1) = true
    rw [lexLe_append]
    exact lexLe_beBytes 8 a.1 b.1 (le_of_lt hab) (h256 ▸ hbound b hb)
  · intro kv hkv
    obtain ⟨ic, _, rfl⟩ := List.mem_map.mp hkv
    exact hasPref_append_self sha (beBytes 8 ic.1)

/-! ## Chunk-sweep (`_delBlobByts`) lemmas -/

lemma foldl_slabDelete :
    ∀ (L : List Bytes) (db : SlabDB),
      L.foldl (fun db k => slabDelete db k) db
        = db.filter (fun kv => decide (kv.1 ∉ L)) := by
  intro L
  induction L with
  | nil => intro db; simp
  | cons k L ih =>
    intro db
    simp only [List.foldl_cons]
    rw [ih (slabDelete db k)]
    unfold slabDelete
    rw [List.filter_filter]
    apply List.filter_congr
    intro kv _
    by_cases h1 : kv.1 = k <;> by_cases h2 : kv.1 ∈ L <;> simp [h1, h2]

lemma mem_scanKeysByPref {db : SlabDB} {pref k : Bytes} :
    k ∈ scanKeysByPref db pref ↔ ∃ v, (k, v) ∈ db ∧ hasPref pref k = true := by
  unfold scanKeysByPref scanByPref
  constructor
  · intro h
    obtain ⟨kv, hkv, rfl⟩ := List.mem_map.mp h
    have hmem := (List.perm_insertionSort keyLe _).mem_iff.mp hkv
    rw [List.mem_filter] at hmem
    exact ⟨kv.2, by rw [Prod.mk.eta]; exact hmem.1, hmem.2⟩
  · rintro ⟨v, hv, hp⟩
    apply List.mem_map.mpr
    refine ⟨(k, v), ?_, rfl⟩
    apply (List.perm_insertionSort keyLe _).mem_iff.mpr
    rw [List.mem_filter]
    exact ⟨hv, hp⟩

lemma mem_delBlobByts {blobs : SlabDB} {sha : Bytes} {kv : Bytes × Bytes}
    (h : kv ∈ delBlobByts blobs sha) : hasPref sha kv.1 = false := by
  unfold delBlobByts at h
  rw [foldl_slabDelete, List.mem_filter] at h
  cases hb : hasPref sha kv.1 with
  | false => rfl
  | true =>
    exfalso
    have hk : kv.1 ∈ scanKeysByPref blobs sha :=
      mem_scanKeysByPref.mpr ⟨kv.2, by rw [Prod.mk.eta]; exact h.1, hb⟩
    exact (of_decide_eq_true h.2) hk

/-! ## Evaluation lemmas for `save`, `del_` and `put` -/

lemma slabGet_mem {db : SlabDB} {k v : Bytes} (h : slabGet db k = some v) :
    (k, v) ∈ db := by
  induction db with
  | nil => simp [slabGet] at h
  | cons kv rest ih =>
    rw [slabGet] at h
    by_cases hk : kv.1 = k
    · rw [if_pos hk] at h
      injection h with h
      have hkv : (k, v) = kv := by rw [← hk, ← h]
      rw [hkv]
      exact List.mem_cons_self _ _
    · rw [if_neg hk] at h
      exact List.mem_cons_of_mem _ (ih h)

lemma chunks_enum_len_sum (chunks : List Bytes) :
    (chunks.enum.map (fun ic => ic.2.length)).sum = (chunks.map List.length).sum := by
  have h : (fun ic : Nat × Bytes => ic.2.length) = List.length ∘ Prod.snd := rfl
  rw [h, ← List.map_map, List.enum_map_snd]

lemma news_map_snd (chunks : List Bytes) (sha : Bytes) :
    (chunks.enum.map (fun ic => (sha ++ beBytes 8 ic.1, ic.2))).map Prod.snd
      = chunks := by
  rw [List.map_map]
  exact List.enum_map_snd chunks

lemma saveFileGenr_ok (sha : Bytes) (p : Producer) (blobs : SlabDB)
    (hf : p.fails = false) :
    saveFileGenr sha p blobs =
      ((p.chunks.enum.foldl
          (fun acc ic => (slabPut acc.1 (sha ++ beBytes 8 ic.1) ic.2, acc.2 + ic.2.length))
          (blobs, 0)).1,
       Except.ok ((p.chunks.map List.length).sum)) := by
  simp only [saveFileGenr, hf, Bool.false_eq_true, if_false]
  rw [saveFoldSize, chunks_enum_len_sum, zero_add]

lemma saveFileGenr_fails (sha : Bytes) (p : Producer) (blobs : SlabDB)
    (hf : p.fails = true) :
    saveFileGenr sha p blobs =
      ((p.chunks.enum.foldl
          (fun acc ic => (slabPut acc.1 (sha ++ beBytes 8 ic.1) ic.2, acc.2 + ic.2.length))
          (blobs, 0)).1,
       Except.error AxonErr.aborted) := by
  simp only [saveFileGenr, hf, if_true]

lemma save_limit (sha : Bytes) (p : Producer) (s : AxonState) (e : AxonErr)
    (hlim : reqBelowLimit s = Except.error e) :
    save sha p s = (s, Except.error e) := by
  unfold save
  rw [hlim]

lemma save_present (sha : Bytes) (p : Producer) (s : AxonState) (b : Bytes)
    (hlim : reqBelowLimit s = Except.ok ())
    (hpres : slabGet s.sizes sha = some b) :
    save sha p s =
      ({ s with hashlocks := lockDrop (lockBump s.hashlocks sha) sha },
       Except.ok (fromBytesBE b)) := by
  unfold save
  rw [hlim, hpres]

lemma save_absent_ok (sha : Bytes) (p : Producer) (s : AxonState)
    (hlim : reqBelowLimit s = Except.ok ())
    (habs : slabGet s.sizes sha = none)
    (hf : p.fails = false) :
    save sha p s =
      ({ s with
          blobs := (p.chunks.enum.foldl
            (fun acc ic => (slabPut acc.1 (sha ++ beBytes 8 ic.1) ic.2, acc.2 + ic.2.length))
            (s.blobs, 0)).1,
          seqn := s.seqn ++ [(sha, (p.chunks.map List.length).sum)],
          hist := s.hist ++ [(sha, (p.chunks.map List.length).sum)],
          fileCount := s.fileCount + 1,
          sizeBytes := s.sizeBytes + ((p.chunks.map List.length).sum : Int),
          sizes := slabPut s.sizes sha (beBytes 8 ((p.chunks.map List.length).sum)),
          hashlocks := lockDrop (lockBump s.hashlocks sha) sha },
       Except.ok ((p.chunks.map List.length).sum)) := by
  unfold save
  rw [hlim, habs, saveFileGenr_ok sha p s.blobs hf]

lemma save_aborted (sha : Bytes) (p : Producer) (s : AxonState)
    (hlim : reqBelowLimit s = Except.ok ())
    (habs : slabGet s.sizes sha = none)
    (hf : p.fails = true) :
    save sha p s =
      ({ s with
          blobs := (p.chunks.enum.foldl
            (fun acc ic => (slabPut acc.1 (sha ++ beBytes 8 ic.1) ic.2, acc.2 + ic.2.length))
            (s.blobs, 0)).1,
          hashlocks := lockBump s.hashlocks sha },
       Except.error AxonErr.aborted) := by
  unfold save
  rw [hlim, habs, saveFileGenr_fails sha p s.blobs hf]

lemma del_absent0 (sha : Bytes) (s : AxonState)
    (habs : slabGet s.sizes sha = none) :
    del_ sha s =
      ({ s with hashlocks := lockDrop (lockBump s.hashlocks sha) sha }, false) := by
  unfold del_
  simp only
  rw [slabPop_fst, habs]
  simp only [pyFalsy, if_true]
  rw [slabPop_none_snd habs]

lemma del_absent (sha : Bytes) (s : AxonState)
    (hlk : ∀ q ∈ s.hashlocks, q.1 = sha → 1 ≤ q.2)
    (habs : slabGet s.sizes sha = none) :
    del_ sha s = (s, false) := by
  rw [del_absent0 sha s habs, lockDrop_lockBump hlk]

lemma del_present (sha : Bytes) (s : AxonState) (b : Bytes)
    (hpres : slabGet s.sizes sha = some b) (hb : b ≠ []) :
    del_ sha s =
      ({ s with
          sizes := (slabPop s.sizes sha).2,
          fileCount := s.fileCount - 1,
          sizeBytes := s.sizeBytes - (fromBytesBE b : Int),
          blobs := delBlobByts s.blobs sha,
          hashlocks := lockDrop (lockBump s.hashlocks sha) sha }, true) := by
  have hfalsy : pyFalsy (some b) = false := by
    cases b with
    | nil => exact absurd rfl hb
    | cons x xs => rfl
  unfold del_
  simp only
  rw [slabPop_fst, hpres, hfalsy]
  simp only [Bool.false_eq_true, if_false, Option.getD_some]

lemma put_has (byts : Bytes) (s : AxonState)
    (hhas : axonHas s (sha256 byts) = true) :
    put byts s = (s, Except.ok (byts.length, sha256 byts)) := by
  simp [put, upLoadSave, hhas]

lemma put_absent (byts : Bytes) (s : AxonState)
    (hlim : reqBelowLimit s = Except.ok ())
    (hhas : axonHas s (sha256 byts) = false) :
    put byts s =
      ({ s with
          blobs := ((chunksOf CHUNK_SIZE byts).enum.foldl
            (fun acc ic =>
              (slabPut acc.1 (sha256 byts ++ beBytes 8 ic.1) ic.2, acc.2 + ic.2.length))
            (s.blobs, 0)).1,
          seqn := s.seqn ++ [(sha256 byts, byts.length)],
          hist := s.hist ++ [(sha256 byts, byts.length)],
          fileCount := s.fileCount + 1,
          sizeBytes := s.sizeBytes + (byts.length : Int),
          sizes := slabPut s.sizes (sha256 byts) (beBytes 8 byts.length),
          hashlocks := lockDrop (lockBump s.hashlocks (sha256 byts)) (sha256 byts) },
       Except.ok (byts.length, sha256 byts)) := by
  have hcs : (0 : Nat) < CHUNK_SIZE := by norm_num [CHUNK_SIZE]
  have hsum := chunksOf_sum CHUNK_SIZE hcs byts
  have habs : slabGet s.sizes (sha256 byts) = none := by
    cases hsg : slabGet s.sizes (sha256 byts) with
    | none => rfl
    | some v =>
      unfold axonHas at hhas
      rw [hsg] at hhas
      simp at hhas
  simp only [put, upLoadSave, hhas, Bool.false_eq_true, if_false]
  rw [save_absent_ok _ _ _ hlim habs rfl, hsum]

lemma axonHas_false_of_none {s : AxonState} {d : Bytes}
    (h : slabGet s.sizes d = none) : axonHas s d = false := by
  unfold axonHas
  rw [h]
  rfl

lemma getBlob_error_of_none {s : AxonState} {d : Bytes}
    (h : slabGet s.sizes d = none) :
    getBlob s d = Except.error AxonErr.noSuchFile := by
  unfold getBlob
  rw [if_neg]
  rw [axonHas_false_of_none h]
  simp

/-! ## Sanity checks of the SHA-256 embedding against published vectors -/

lemma sha256_empty_vector :
    sha256 [] =
      [0xe3, 0xb0, 0xc4, 0x42, 0x98, 0xfc, 0x1c, 0x14, 0x9a, 0xfb, 0xf4, 0xc8,
       0x99, 0x6f, 0xb9, 0x24, 0x27, 0xae, 0x41, 0xe4, 0x64, 0x9b, 0x93, 0x4c,
       0xa4, 0x95, 0x99, 0x1b, 0x78, 0x52, 0xb8, 0x55] := by
  decide

lemma sha256_abc_vector :
    sha256 [97, 98, 99] =
      [0xba, 0x78, 0x16, 0xbf, 0x8f, 0x01, 0xcf, 0xea, 0x41, 0x41, 0x40, 0xde,
       0x5d, 0xae, 0x22, 0x23, 0xb0, 0x03, 0x61, 0xa3, 0x96, 0x17, 0x7a, 0x9c,
       0xb4, 0x10, 0xff, 0x61, 0xf2, 0x00, 0x15, 0xad] := by
  decide

/-! ## Claim theorems -/

/-- C1: round-trip — for every byte sequence `B` (in a state below the
configured limits, without the digest and without orphan chunks under it),
`put B` returns `(len B, sha256 B)`, afterwards `size` of that digest reports
`len B`, and `get` yields exactly the `CHUNK_SIZE` chunks of `B`, whose
concatenation is `B`; for empty `B` this yields zero chunks. -/
theorem c1_round_trip (B : Bytes) (s : AxonState)
    (hlen : B.length < 2 ^ 64)
    (hhas : axonHas s (sha256 B) = false)
    (horph : ∀ kv ∈ s.blobs, hasPref (sha256 B) kv.1 = false)
    (hlim : reqBelowLimit s = Except.ok ()) :
    (put B s).2 = Except.ok (B.length, sha256 B) ∧
    axonSize (put B s).1 (sha256 B) = some B.length ∧
    getBlob (put B s).1 (sha256 B) = Except.ok (chunksOf CHUNK_SIZE B) ∧
    (getBlob (put B s).1 (sha256 B)).map List.flatten = Except.ok B := by
  have h256 : (256 : Nat) ^ 8 = 2 ^ 64 := by norm_num
  have hcs : (0 : Nat) < CHUNK_SIZE := by norm_num [CHUNK_SIZE]
  have hbound : ∀ ic ∈ (chunksOf CHUNK_SIZE B).enum, ic.1 < 2 ^ 64 := by
    intro ic hic
    have h1 := mem_enum_lt hic
    have h2 := chunksOf_length_le CHUNK_SIZE hcs B
    omega
  have hfresh : ∀ ic ∈ (chunksOf CHUNK_SIZE B).enum, ∀ kv ∈ s.blobs,
      kv.1 ≠ sha256 B ++ beBytes 8 ic.1 := by
    intro ic _ kv hkv hcon
    have h1 := horph kv hkv
    rw [hcon, hasPref_append_self] at h1
    simp at h1
  have hfold := saveFold (sha256 B) (chunksOf CHUNK_SIZE B).enum s.blobs 0 hfresh hbound
    ((enum_pairwise _).imp (fun h => Nat.ne_of_lt h))
  have hscan := scanByPref_fresh_save (sha256 B) s.blobs (chunksOf CHUNK_SIZE B).enum
    horph hbound (enum_pairwise _)
  have hmap : ((scanByPref ((chunksOf CHUNK_SIZE B).enum.foldl
      (fun acc ic =>
        (slabPut acc.1 (sha256 B ++ beBytes 8 ic.1) ic.2, acc.2 + ic.2.length))
      (s.blobs, 0)).1 (sha256 B)).map Prod.snd) = chunksOf CHUNK_SIZE B := by
    rw [hfold]
    show ((scanByPref (s.blobs ++ _) (sha256 B)).map Prod.snd) = _
    rw [hscan, news_map_snd]
  rw [put_absent B s hlim hhas]
  refine ⟨rfl, ?_, ?_, ?_⟩
  · show (slabGet (slabPut s.sizes (sha256 B) (beBytes 8 B.length)) (sha256 B)).map
      fromBytesBE = some B.length
    rw [slabGet_slabPut_self, Option.map_some', fromBytesBE_beBytes (h256 ▸ hlen)]
  · show getBlob _ (sha256 B) = _
    unfold getBlob
    rw [if_pos ?_]
    · rw [hmap]
    · show (slabGet (slabPut s.sizes (sha256 B) (beBytes 8 B.length)) (sha256 B)).isSome
        = true
      rw [slabGet_slabPut_self]
      rfl
  · show (getBlob _ (sha256 B)).map List.flatten = _
    unfold getBlob
    rw [if_pos ?_]
    · show Except.map List.flatten (Except.ok _) = _
      rw [Except.map, hmap, chunksOf_flatten CHUNK_SIZE hcs B]
    · show (slabGet (slabPut s.sizes (sha256 B) (beBytes 8 B.length)) (sha256 B)).isSome
        = true
      rw [slabGet_slabPut_self]
      rfl

/-- C1 witness: scenario S1 — `put b""` on a fresh Axon returns
`(0, sha256 b"")`, `size` reports 0, and `get` yields zero chunks. -/
theorem c1_round_trip_witness :
    (put [] (axonInit none none)).2 = Except.ok (0, sha256 []) ∧
    axonSize (put [] (axonInit none none)).1 (sha256 []) = some 0 ∧
    getBlob (put [] (axonInit none none)).1 (sha256 []) = Except.ok [] ∧
    (getBlob (put [] (axonInit none none)).1 (sha256 [])).map List.flatten
      = Except.ok [] := by
  have h := c1_round_trip [] (axonInit none none) (by norm_num) rfl
    (by simp [axonInit]) rfl
  exact ⟨h.1, h.2.1, h.2.2.1, h.2.2.2⟩

/-- A state with one stored blob of size 1 and `max:count = 1`: the Axon is
exactly at its file-count limit while digest `[1]` is present. -/
def c2state : AxonState :=
  ⟨[([1], beBytes 8 1)], [], [([1], 1)], [([1], 1)], 1, 1, none, some 1, []⟩

/-- C2 counterexample: the claim says the existence re-check precedes the
capacity check, so `save` of an already-present digest returns the stored size
and `HitLimit` is raised only for absent digests.  In the code
`_reqBelowLimit` runs first: at the `max:count` limit, `save` of the present
digest `[1]` raises `HitLimit` instead of returning the stored size. -/
theorem c2_counterexample :
    slabGet c2state.sizes [1] = some (beBytes 8 1) ∧
    save [1] ⟨[], false⟩ c2state = (c2state, Except.error AxonErr.hitLimit) := by
  exact ⟨by decide, by decide⟩

/-- C2 amended: the capacity check precedes the existence re-check; when the
state is below the configured limits, `save` of a digest already present in
the size index returns the stored size without modifying any state. -/
theorem c2_amended (s : AxonState) (sha b : Bytes) (p : Producer)
    (hlk : ∀ q ∈ s.hashlocks, q.1 = sha → 1 ≤ q.2)
    (hlim : reqBelowLimit s = Except.ok ())
    (hpres : slabGet s.sizes sha = some b) :
    save sha p s = (s, Except.ok (fromBytesBE b)) := by
  rw [save_present sha p s b hlim hpres, lockDrop_lockBump hlk]

/-- A below-limit state holding digest `[1]` with stored size 1. -/
def c2stateOk : AxonState :=
  ⟨[([1], beBytes 8 1)], [], [([1], 1)], [([1], 1)], 1, 1, none, none, []⟩

/-- C2 amended witness: saving the already-present digest `[1]` in a
below-limit state returns the stored size 1 and leaves the state unchanged. -/
theorem c2_amended_witness :
    save [1] ⟨[], false⟩ c2stateOk = (c2stateOk, Except.ok (fromBytesBE (beBytes 8 1))) :=
  c2_amended c2stateOk [1] (beBytes 8 1) ⟨[], false⟩ (by simp [c2stateOk]) rfl rfl

/-- C3: idempotent save — from a below-limit state without the digest,
`put B` returns `(len B, sha256 B)`, stores exactly one size-index entry for
the digest, bumps `file:count` by one and `size:bytes` by `len B`, appends one
sequence row, and a repeated `put B` returns the same tuple while leaving the
state completely unchanged (so N calls change the counters only once). -/
theorem c3_idempotent_put (B : Bytes) (s : AxonState)
    (hhas : axonHas s (sha256 B) = false)
    (hlim : reqBelowLimit s = Except.ok ()) :
    (put B s).2 = Except.ok (B.length, sha256 B) ∧
    slabGet (put B s).1.sizes (sha256 B) = some (beBytes 8 B.length) ∧
    (put B s).1.fileCount = s.fileCount + 1 ∧
    (put B s).1.sizeBytes = s.sizeBytes + (B.length : Int) ∧
    (put B s).1.seqn = s.seqn ++ [(sha256 B, B.length)] ∧
    put B (put B s).1 = ((put B s).1, Except.ok (B.length, sha256 B)) := by
  rw [put_absent B s hlim hhas]
  refine ⟨rfl, ?_, rfl, rfl, rfl, ?_⟩
  · exact slabGet_slabPut_self s.sizes (sha256 B) (beBytes 8 B.length)
  · apply put_has
    show (slabGet (slabPut s.sizes (sha256 B) (beBytes 8 B.length)) (sha256 B)).isSome
      = true
    rw [slabGet_slabPut_self]
    rfl

/-- C3 witness: scenario S2 — `put b"abc"` on a fresh Axon returns
`(3, sha256 b"abc")`, sets `file:count` to 1, and a second `put b"abc"`
returns the same tuple leaving the state unchanged. -/
theorem c3_idempotent_put_witness :
    (put [97, 98, 99] (axonInit none none)).2
      = Except.ok (3, sha256 [97, 98, 99]) ∧
    (put [97, 98, 99] (axonInit none none)).1.fileCount = 1 ∧
    put [97, 98, 99] (put [97, 98, 99] (axonInit none none)).1
      = ((put [97, 98, 99] (axonInit none none)).1,
         Except.ok (3, sha256 [97, 98, 99])) := by
  have h := c3_idempotent_put [97, 98, 99] (axonInit none none) rfl rfl
  exact ⟨h.1, h.2.2.1, h.2.2.2.2.2⟩

/-- C4: delete completeness — `del_` returns false iff the size index has no
entry for the digest (leaving the state unchanged when so), and on a present
digest with stored value `v` it returns true, pops the entry, decrements
`file:count` by 1 and `size:bytes` by the decoded size, leaves no chunk key
with the digest as prefix, and afterwards `has` is false and `get` raises
`NoSuchFile`. -/
theorem c4_delete_completeness (s : AxonState) (d : Bytes)
    (hwf : sizesWf s.sizes)
    (hlk : ∀ q ∈ s.hashlocks, q.1 = d → 1 ≤ q.2) :
    ((del_ d s).2 = false ↔ slabGet s.sizes d = none) ∧
    ((del_ d s).2 = false → (del_ d s).1 = s) ∧
    (∀ v, slabGet s.sizes d = some v →
      (del_ d s).2 = true ∧
      slabGet (del_ d s).1.sizes d = none ∧
      (del_ d s).1.fileCount = s.fileCount - 1 ∧
      (del_ d s).1.sizeBytes = s.sizeBytes - (fromBytesBE v : Int) ∧
      (∀ kv ∈ (del_ d s).1.blobs, hasPref d kv.1 = false) ∧
      axonHas (del_ d s).1 d = false ∧
      getBlob (del_ d s).1 d = Except.error AxonErr.noSuchFile) := by
  cases hsg : slabGet s.sizes d with
  | none =>
    rw [del_absent d s hlk hsg]
    refine ⟨by simp, fun _ => rfl, ?_⟩
    intro v hv
    exact absurd hv (by simp)
  | some b =>
    have hbne : b ≠ [] := hwf.2 (d, b) (slabGet_mem hsg)
    rw [del_present d s b hsg hbne]
    have hnone : slabGet (slabPop s.sizes d).2 d = none := slabPop_get_none hwf.1
    refine ⟨by simp, by simp, ?_⟩
    intro v hv
    injection hv with hv
    subst hv
    refine ⟨rfl, hnone, rfl, rfl, fun kv hkv => mem_delBlobByts hkv,
      axonHas_false_of_none hnone, getBlob_error_of_none hnone⟩

/-- A state holding digest `[1]` with stored size 1. -/
def c4state : AxonState :=
  ⟨[([1], beBytes 8 1)], [([1, 0, 0, 0, 0, 0, 0, 0, 0], [5])], [], [], 1, 1,
   none, none, []⟩

/-- C4 witness: deleting the stored digest `[1]` returns true, pops the
size-index entry, decrements `file:count`, and leaves `has` false and `get`
failing with `NoSuchFile`. -/
theorem c4_delete_completeness_witness :
    (del_ [1] c4state).2 = true ∧
    slabGet (del_ [1] c4state).1.sizes [1] = none ∧
    (del_ [1] c4state).1.fileCount = c4state.fileCount - 1 ∧
    axonHas (del_ [1] c4state).1 [1] = false ∧
    getBlob (del_ [1] c4state).1 [1] = Except.error AxonErr.noSuchFile := by
  have h := c4_delete_completeness c4state [1] ⟨by decide, by decide⟩
    (by simp [c4state])
  have h3 := h.2.2 (beBytes 8 1) (by decide)
  exact ⟨h3.1, h3.2.1, h3.2.2.1, h3.2.2.2.2.2.1, h3.2.2.2.2.2.2⟩

/-- C5 (claim is right, code is wrong): `holdHashLock` must decrement the
refcount and drop the zero-refcount entry on every exit path, but the
generator has no try/finally, so when the guarded body raises, the decrement
after the `yield` is skipped: a single holder whose body fails leaves the
registry entry `([1], 1)` behind forever, while a normally exiting holder
removes it as the claim describes. -/
theorem c5_hashlock_leak :
    holdHashLockRun [] [1] false = [([1], 1)] ∧
    holdHashLockRun [] [1] true = [] := by
  exact ⟨by decide, by decide⟩

/-- C6: metrics consistency — if `file:count` equals the number of size-index
entries and `size:bytes` their decoded sum, then any completed `save`
(succeeding on a new digest, short-circuiting on a present one, or raising)
and any `del_` preserves the invariant. -/
theorem c6_metrics_invariant (op : AxOp) (s : AxonState)
    (hwf : sizesWf s.sizes) (hsz : opSizeOk op) (hm : metricsOk s) :
    metricsOk (runOpState op s) := by
  have h256 : (256 : Nat) ^ 8 = 2 ^ 64 := by norm_num
  obtain ⟨hmc, hmb⟩ := hm
  cases op with
  | opSave sha p =>
    show metricsOk (save sha p s).1
    cases hlim : reqBelowLimit s with
    | error e =>
      rw [save_limit sha p s e hlim]
      exact ⟨hmc, hmb⟩
    | ok u =>
      cases u
      cases hsg : slabGet s.sizes sha with
      | some b =>
        rw [save_present sha p s b hlim hsg]
        exact ⟨hmc, hmb⟩
      | none =>
        cases hf : p.fails with
        | true =>
          rw [save_aborted sha p s hlim hsg hf]
          exact ⟨hmc, hmb⟩
        | false =>
          rw [save_absent_ok sha p s hlim hsg hf]
          have hsum : (p.chunks.map List.length).sum < 256 ^ 8 := by
            rw [h256]
            exact hsz
          constructor
          · show s.fileCount + 1
              = ((slabPut s.sizes sha
                  (beBytes 8 ((p.chunks.map List.length).sum))).length : Int)
            rw [slabPut_absent _ hsg, List.length_append]
            simp only [List.length_cons, List.length_nil]
            push_cast
            omega
          · show s.sizeBytes + ((p.chunks.map List.length).sum : Int)
              = sizesSum (slabPut s.sizes sha
                  (beBytes 8 ((p.chunks.map List.length).sum)))
            rw [slabPut_absent _ hsg]
            unfold sizesSum
            rw [List.map_append, List.sum_append]
            simp only [List.map_cons, List.map_nil, List.sum_cons, List.sum_nil]
            rw [fromBytesBE_beBytes hsum]
            unfold sizesSum at hmb
            rw [hmb]
            ring
  | opDel sha =>
    show metricsOk (del_ sha s).1
    cases hsg : slabGet s.sizes sha with
    | none =>
      rw [del_absent0 sha s hsg]
      exact ⟨hmc, hmb⟩
    | some b =>
      have hbne : b ≠ [] := hwf.2 (sha, b) (slabGet_mem hsg)
      rw [del_present sha s b hsg hbne]
      constructor
      · show s.fileCount - 1 = (((slabPop s.sizes sha).2).length : Int)
        have hlen := slabPop_some_length hsg
        omega
      · show s.sizeBytes - (fromBytesBE b : Int) = sizesSum (slabPop s.sizes sha).2
        have hsum := slabPop_some_sum hsg
        linarith [hmb]

/-- C6 witness: deleting an absent digest from a fresh Axon preserves the
metrics invariant. -/
theorem c6_metrics_invariant_witness :
    metricsOk (runOpState (AxOp.opDel [1]) (axonInit none none)) :=
  c6_metrics_invariant (AxOp.opDel [1]) (axonInit none none)
    ⟨List.nodup_nil, by simp [axonInit]⟩ True.intro ⟨rfl, rfl⟩

/-- The store after saving digests `[1]` and `[2]` and deleting `[1]`:
sequence offsets 0 and 1 exist, but offset 0's digest is gone. -/
def c7state : AxonState :=
  (del_ [1] (save [2] ⟨[[11]], false⟩
    (save [1] ⟨[[10]], false⟩ (axonInit none none)).1).1).1

/-- C7 counterexample: the claim says the offsets yielded by `hashes 0` are
dense from 0 even after deletions.  After saving two blobs and deleting the
first, `hashes 0` yields only offset 1 — the deleted entry's offset 0 is
skipped, so the offsets are not `0, 1, …`. -/
theorem c7_counterexample :
    (hashes 0 c7state).map Prod.fst = [1] ∧
    (hashes 0 c7state).map Prod.fst ≠ List.range (hashes 0 c7state).length := by
  exact ⟨by decide, by decide⟩

/-- C7 amended: the offsets yielded by `hashes` are strictly increasing (a
subsequence of the sequence offsets), but entries whose size-index entry has
been deleted are skipped, leaving gaps, so density from 0 holds only when no
yielded-range entry has been deleted. -/
theorem c7_amended (offs : Nat) (s : AxonState) :
    ((hashes offs s).map Prod.fst).Pairwise (fun a b => a < b) := by
  unfold hashes
  rw [List.pairwise_map]
  exact List.Pairwise.filter _ (enum_pairwise s.seqn)

/-- C8: partial-save atomicity — when the producer raises after its chunks,
`save` propagates the error leaving the size index, sequence, history and
both counters untouched (only orphan chunks are written), `has` stays false,
and a subsequent complete save of the same content succeeds and makes the
digest visible. -/
theorem c8_partial_save (s : AxonState) (d : Bytes) (chunks : List Bytes)
    (hlim : reqBelowLimit s = Except.ok ())
    (habs : slabGet s.sizes d = none) :
    (save d ⟨chunks, true⟩ s).2 = Except.error AxonErr.aborted ∧
    (save d ⟨chunks, true⟩ s).1.sizes = s.sizes ∧
    (save d ⟨chunks, true⟩ s).1.seqn = s.seqn ∧
    (save d ⟨chunks, true⟩ s).1.hist = s.hist ∧
    (save d ⟨chunks, true⟩ s).1.fileCount = s.fileCount ∧
    (save d ⟨chunks, true⟩ s).1.sizeBytes = s.sizeBytes ∧
    axonHas (save d ⟨chunks, true⟩ s).1 d = false ∧
    (save d ⟨chunks, false⟩ (save d ⟨chunks, true⟩ s).1).2
      = Except.ok ((chunks.map List.length).sum) ∧
    axonHas (save d ⟨chunks, false⟩ (save d ⟨chunks, true⟩ s).1).1 d = true := by
  rw [save_aborted d ⟨chunks, true⟩ s hlim habs rfl]
  refine ⟨rfl, rfl, rfl, rfl, rfl, rfl, axonHas_false_of_none habs, ?_, ?_⟩
  · rw [save_absent_ok d ⟨chunks, false⟩ _ (by exact hlim) (by exact habs) rfl]
  · rw [save_absent_ok d ⟨chunks, false⟩ _ (by exact hlim) (by exact habs) rfl]
    show (slabGet (slabPut _ d (beBytes 8 _)) d).isSome = true
    rw [slabGet_slabPut_self]
    rfl

/-- C8 witness: a one-chunk producer that fails leaves the digest invisible
with the save raising `Aborted`; retrying with the complete producer stores
the blob. -/
theorem c8_partial_save_witness :
    (save [1] ⟨[[5]], true⟩ (axonInit none none)).2 = Except.error AxonErr.aborted ∧
    axonHas (save [1] ⟨[[5]], true⟩ (axonInit none none)).1 [1] = false ∧
    (save [1] ⟨[[5]], false⟩ (save [1] ⟨[[5]], true⟩ (axonInit none none)).1).2
      = Except.ok 1 ∧
    axonHas
      (save [1] ⟨[[5]], false⟩ (save [1] ⟨[[5]], true⟩ (axonInit none none)).1).1 [1]
      = true := by
  have h := c8_partial_save (axonInit none none) [1] [[5]] rfl rfl
  exact ⟨h.1, h.2.2.2.2.2.2.1, h.2.2.2.2.2.2.2.1, h.2.2.2.2.2.2.2.2⟩

/-- A trivial stand-in for the md5/sha1/sha512 accumulators. -/
def zeroHash : Bytes → Bytes := fun _ => []

/-- A state at its `max:count = 1` limit with one stored blob. -/
def c9state : AxonState :=
  ⟨[([9], beBytes 8 1)], [], [([9], 1)], [([9], 1)], 1, 1, none, some 1, []⟩

/-- C9 counterexample: the claim says a completed HTTP exchange always yields
`ok = true`.  On an Axon at its `max:count` limit the exchange completes but
the store's `save` raises `HitLimit` inside the try block, and the blanket
`except Exception` folds it into `ok = false` with a message. -/
theorem c9_counterexample :
    (wget zeroHash zeroHash zeroHash (HttpOutcome.resp ⟨"u", 200, [], [7]⟩) c9state).2
      = Except.ok ⟨false, none, none, none, none, none,
          some (errMesg AxonErr.hitLimit)⟩ := by
  decide

/-- C9 amended: when the exchange completes and the store accepts the body,
`wget` returns `ok = true` with url, code, headers, stored size and the four
hex digests; any exception inside the try block — transport-level or storage
(see the counterexample) — yields `{ok = false, mesg}` instead of raising;
cancellation is re-raised, not folded into the result. -/
theorem c9_amended (md5f sha1f sha512f : Bytes → Bytes) (s s1 : AxonState)
    (r : HttpResp) (m : String) (sz : Nat) (dg : Bytes)
    (hsave : upLoadSave r.body s = (s1, Except.ok (sz, dg))) :
    wget md5f sha1f sha512f (HttpOutcome.exn m) s
      = (s, Except.ok ⟨false, none, none, none, none, none, some m⟩) ∧
    wget md5f sha1f sha512f HttpOutcome.cancelled s = (s, Except.error ()) ∧
    wget md5f sha1f sha512f (HttpOutcome.resp r) s
      = (s1, Except.ok ⟨true, some r.url, some r.code, some r.headers, some sz,
          some [("md5", ehex (md5f r.body)), ("sha1", ehex (sha1f r.body)),
                ("sha256", ehex (sha256 r.body)), ("sha512", ehex (sha512f r.body))],
          none⟩) := by
  refine ⟨rfl, rfl, ?_⟩
  simp only [wget]
  rw [hsave]
  rfl

/-- C9 amended witness: fetching an empty 404 body on a fresh Axon stores it
and reports `ok = true` with all four digests; a transport exception yields
`ok = false` with the message; cancellation propagates as an error. -/
theorem c9_amended_witness :
    wget zeroHash zeroHash zeroHash (HttpOutcome.exn "boom") (axonInit none none)
      = (axonInit none none,
         Except.ok ⟨false, none, none, none, none, none, some "boom"⟩) ∧
    wget zeroHash zeroHash zeroHash HttpOutcome.cancelled (axonInit none none)
      = (axonInit none none, Except.error ()) ∧
    wget zeroHash zeroHash zeroHash (HttpOutcome.resp ⟨"u", 404, [], []⟩)
        (axonInit none none)
      = ((upLoadSave [] (axonInit none none)).1,
         Except.ok ⟨true, some "u", some 404, some [], some 0,
           some [("md5", ehex (zeroHash [])), ("sha1", ehex (zeroHash [])),
                 ("sha256", ehex (sha256 [])), ("sha512", ehex (zeroHash []))],
           none⟩) := by
  have h := c9_amended zeroHash zeroHash zeroHash (axonInit none none)
    (upLoadSave [] (axonInit none none)).1 ⟨"u", 404, [], []⟩ "boom" 0 (sha256 [])
    (by decide)
  exact h

/-- C10: deleting the stored empty blob — a size-index entry holding the
8-byte encoding of 0 is truthy (non-empty bytes), so `del_` returns true,
pops the entry, decrements `file:count` by 1 and `size:bytes` by 0. -/
theorem c10_zero_size_delete (s : AxonState) (d : Bytes)
    (hnd : (s.sizes.map Prod.fst).Nodup)
    (hstored : slabGet s.sizes d = some (beBytes 8 0)) :
    (del_ d s).2 = true ∧
    (del_ d s).1.fileCount = s.fileCount - 1 ∧
    (del_ d s).1.sizeBytes = s.sizeBytes ∧
    slabGet (del_ d s).1.sizes d = none := by
  have h0 : fromBytesBE (beBytes 8 0) = 0 := by decide
  rw [del_present d s (beBytes 8 0) hstored (by decide)]
  refine ⟨rfl, rfl, ?_, slabPop_get_none hnd⟩
  show s.sizeBytes - (fromBytesBE (beBytes 8 0) : Int) = s.sizeBytes
  rw [h0]
  simp

/-- A state storing the empty blob under digest `[1]`. -/
def c10state : AxonState := ⟨[([1], beBytes 8 0)], [], [], [], 1, 0, none, none, []⟩

/-- C10 witness: deleting the zero-size entry `[1]` succeeds, decrements
`file:count`, leaves `size:bytes` unchanged and removes the entry. -/
theorem c10_zero_size_delete_witness :
    (del_ [1] c10state).2 = true ∧
    (del_ [1] c10state).1.fileCount = c10state.fileCount - 1 ∧
    (del_ [1] c10state).1.sizeBytes = c10state.sizeBytes ∧
    slabGet (del_ [1] c10state).1.sizes [1] = none :=
  c10_zero_size_delete c10state [1] (by decide) (by decide)

end Synapse




